import Mathlib

/-!
Verification development for the real-time market-data layer of the `rdex`
trading dashboard: the WebSocket connection manager (`WebSocketManager.ts`),
the LRU data cache (`DataCache`), the Binance REST/WS data source
(`BinanceDataSource.ts`), the order-book reconstructor (`useOrderBookStore`)
and the kline query-cache merge (`useKlineData.ts`).

JavaScript `Map` objects are embedded as association lists in insertion
order (head = first/oldest inserted key): `Map.set` overwrites in place
when the key is present and appends otherwise, `Map.delete` removes the
first matching entry, `Map.keys().next().value` is the head key.
Wall-clock time (`Date.now()`) is passed explicitly in milliseconds.
-/

/-- JS `Map.prototype.set`: overwrite the entry in place if the key is
    present (keeping its position in insertion order), append otherwise. -/
def mapSet (k : String) (v : β) : List (String × β) → List (String × β)
  | [] => [(k, v)]
  | (k', v') :: rest =>
      if k' = k then (k, v) :: rest else (k', v') :: mapSet k v rest

/-- JS `Map.prototype.delete`: remove the (first, hence under the no-duplicate
    invariant the only) entry with the given key. -/
def deleteKey (k : String) : List (String × β) → List (String × β)
  | [] => []
  | (k', v') :: rest =>
      if k' = k then rest else (k', v') :: deleteKey k rest

/-- JS `Map.prototype.get` / `has`: look up the value stored at a key. -/
def lookupKey (k : String) : List (String × β) → Option β
  | [] => none
  | (k', v') :: rest => if k' = k then some v' else lookupKey k rest

/-- `CacheItem<T>` of `src/lib/kline/types.ts`: payload plus creation
    timestamp and expiry duration (both in milliseconds). -/
structure CacheItem (α : Type) where
  data : α
  timestamp : Nat
  expiry : Nat
  deriving DecidableEq

/-- The mutable state of the `DataCache` singleton: the backing `Map` in
    insertion/access order plus the two configurable limits. -/
structure DataCache (α : Type) where
  entries : List (String × CacheItem α)
  maxSize : Nat
  defaultExpiry : Nat

namespace DataCache

/-- The expiry stored by `set`: the JS expression `expiry || this.defaultExpiry`
    (an absent argument and an explicit `0` are both falsy and fall back to
    the default). -/
def resolveExpiry (c : DataCache α) (expiry : Option Nat) : Nat :=
  match expiry with
  | some e => if e = 0 then c.defaultExpiry else e
  | none => c.defaultExpiry

/-- The eviction step at the top of `set`: when `size >= maxSize` the first
    (oldest) key of the `Map` (`keys().next().value`) is deleted; on an empty
    map that key is `undefined` and the delete is a no-op. -/
def evict (c : DataCache α) : DataCache α :=
  if c.entries.length ≥ c.maxSize then
    match c.entries with
    | [] => c
    | e :: _ => { c with entries := deleteKey e.1 c.entries }
  else c

/-- `DataCache.set(key, data, expiry?)`: evict when at/over capacity, then
    store the new item with `expiry || defaultExpiry`. -/
def set (c : DataCache α) (key : String) (data : α) (expiry : Option Nat)
    (now : Nat) : DataCache α :=
  { c.evict with
    entries :=
      mapSet key ⟨data, now, c.resolveExpiry expiry⟩ c.evict.entries }

/-- `DataCache.get(key)`: miss when absent; when `now − timestamp > expiry`
    the stale entry is deleted and `null` is returned; on a hit the entry is
    deleted and re-inserted (moved to most-recently-used position) and the
    payload returned. -/
def get (c : DataCache α) (key : String) (now : Nat) :
    DataCache α × Option α :=
  match lookupKey key c.entries with
  | none => (c, none)
  | some item =>
      if now - item.timestamp > item.expiry then
        ({ c with entries := deleteKey key c.entries }, none)
      else
        ({ c with entries := mapSet key item (deleteKey key c.entries) },
         some item.data)

/-- `DataCache.has(key)`: existence check honouring expiry; a stale entry is
    deleted as a side effect. -/
def has (c : DataCache α) (key : String) (now : Nat) :
    DataCache α × Bool :=
  match lookupKey key c.entries with
  | none => (c, false)
  | some item =>
      if now - item.timestamp > item.expiry then
        ({ c with entries := deleteKey key c.entries }, false)
      else (c, true)

/-- `DataCache.delete(key)`. -/
def del (c : DataCache α) (key : String) : DataCache α × Bool :=
  ((match lookupKey key c.entries with
    | none => c
    | some _ => { c with entries := deleteKey key c.entries }),
   (lookupKey key c.entries).isSome)

/-- `DataCache.setMaxSize(size)`. -/
def setMaxSize (c : DataCache α) (size : Nat) : DataCache α :=
  { c with maxSize := size }

/-- `DataCache.setDefaultExpiry(expiry)`. -/
def setDefaultExpiry (c : DataCache α) (expiry : Nat) : DataCache α :=
  { c with defaultExpiry := expiry }

/-- A fresh `DataCache` instance: empty map, `maxSize = 50`,
    `defaultExpiry = 5 * 60 * 1000`. -/
def init (α : Type) : DataCache α := ⟨[], 50, 5 * 60 * 1000⟩

end DataCache

/-! ### Association-list lemmas for the JS `Map` embedding -/

theorem lookup_mapSet_self (k : String) (v : β) (l : List (String × β)) :
    lookupKey k (mapSet k v l) = some v := by
  induction l with
  | nil => simp [mapSet, lookupKey]
  | cons hd tl ih =>
    obtain ⟨k', v'⟩ := hd
    by_cases h : k' = k
    · simp [mapSet, h, lookupKey]
    · simp [mapSet, h, lookupKey, ih]

theorem lookup_mapSet_ne (k a : String) (v : β) (l : List (String × β))
    (h : a ≠ k) : lookupKey a (mapSet k v l) = lookupKey a l := by
  induction l with
  | nil => simp [mapSet, lookupKey, Ne.symm h]
  | cons hd tl ih =>
    obtain ⟨k', v'⟩ := hd
    by_cases hk : k' = k
    · subst hk
      simp [mapSet, lookupKey, Ne.symm h]
    · by_cases ha : k' = a
      · subst ha
        simp [mapSet, lookupKey, hk]
      · simp [mapSet, lookupKey, hk, ha, ih]

theorem mem_keys_mapSet (k a : String) (v : β) (l : List (String × β)) :
    a ∈ (mapSet k v l).map Prod.fst ↔ a = k ∨ a ∈ l.map Prod.fst := by
  induction l with
  | nil => simp [mapSet]
  | cons hd tl ih =>
    obtain ⟨k', v'⟩ := hd
    by_cases hk : k' = k
    · subst hk
      simp [mapSet]
    · simp [mapSet, hk, ih]
      tauto

theorem mapSet_of_not_mem (k : String) (v : β) (l : List (String × β))
    (h : k ∉ l.map Prod.fst) : mapSet k v l = l ++ [(k, v)] := by
  induction l with
  | nil => simp [mapSet]
  | cons hd tl ih =>
    obtain ⟨k', v'⟩ := hd
    simp only [List.map_cons, List.mem_cons] at h
    push_neg at h
    simp [mapSet, Ne.symm h.1, ih h.2]

theorem nodup_keys_mapSet (k : String) (v : β) (l : List (String × β))
    (h : (l.map Prod.fst).Nodup) : ((mapSet k v l).map Prod.fst).Nodup := by
  induction l with
  | nil => simp [mapSet]
  | cons hd tl ih =>
    obtain ⟨k', v'⟩ := hd
    simp only [List.map_cons, List.nodup_cons] at h
    by_cases hk : k' = k
    · subst hk
      simpa [mapSet] using h
    · simp only [mapSet, if_neg hk, List.map_cons, List.nodup_cons]
      refine ⟨fun hm => ?_, ih h.2⟩
      rcases (mem_keys_mapSet k k' v tl).mp hm with h1 | h1
      · exact hk h1
      · exact h.1 h1

theorem deleteKey_sublist (k : String) (l : List (String × β)) :
    List.Sublist (deleteKey k l) l := by
  induction l with
  | nil => simp [deleteKey]
  | cons hd tl ih =>
    obtain ⟨k', v'⟩ := hd
    by_cases hk : k' = k
    · simp [deleteKey, hk]
    · simpa [deleteKey, hk] using ih.cons₂ (k', v')

theorem nodup_keys_deleteKey (k : String) (l : List (String × β))
    (h : (l.map Prod.fst).Nodup) : ((deleteKey k l).map Prod.fst).Nodup :=
  ((deleteKey_sublist k l).map Prod.fst).nodup h

theorem lookup_eq_none_of_not_mem (k : String) (l : List (String × β))
    (h : k ∉ l.map Prod.fst) : lookupKey k l = none := by
  induction l with
  | nil => rfl
  | cons hd tl ih =>
    obtain ⟨k', v'⟩ := hd
    simp only [List.map_cons, List.mem_cons] at h
    push_neg at h
    simp [lookupKey, Ne.symm h.1, ih h.2]

theorem lookup_deleteKey_self (k : String) (l : List (String × β))
    (h : (l.map Prod.fst).Nodup) : lookupKey k (deleteKey k l) = none := by
  induction l with
  | nil => rfl
  | cons hd tl ih =>
    obtain ⟨k', v'⟩ := hd
    simp only [List.map_cons, List.nodup_cons] at h
    by_cases hk : k' = k
    · subst hk
      simp only [deleteKey, if_pos rfl]
      exact lookup_eq_none_of_not_mem k' tl h.1
    · simp [deleteKey, lookupKey, hk, ih h.2]

theorem deleteKey_cons_self (x : String × β) (rest : List (String × β)) :
    deleteKey x.1 (x :: rest) = rest := by
  obtain ⟨k, v⟩ := x
  simp [deleteKey]

theorem nodup_keys_evict (c : DataCache α)
    (h : (c.entries.map Prod.fst).Nodup) :
    ((c.evict).entries.map Prod.fst).Nodup := by
  unfold DataCache.evict
  split
  · cases hx : c.entries with
    | nil => simp [hx]
    | cons e rest =>
      simp only [hx]
      exact nodup_keys_deleteKey e.1 (e :: rest) (by rw [hx] at h; exact h)
  · exact h

theorem nodup_keys_set (c : DataCache α) (k : String) (v : α)
    (e : Option Nat) (t : Nat) (h : (c.entries.map Prod.fst).Nodup) :
    (((c.set k v e t).entries).map Prod.fst).Nodup :=
  nodup_keys_mapSet _ _ _ (nodup_keys_evict c h)

theorem set_entries (c : DataCache α) (k : String) (v : α)
    (e : Option Nat) (t : Nat) :
    (c.set k v e t).entries
      = mapSet k ⟨v, t, c.resolveExpiry e⟩ c.evict.entries := rfl

theorem evict_entries_full (c : DataCache α) (x : String × CacheItem α)
    (rest : List (String × CacheItem α)) (hx : c.entries = x :: rest)
    (hfull : c.maxSize ≤ c.entries.length) :
    (c.evict).entries = rest := by
  unfold DataCache.evict
  rw [hx]
  rw [hx] at hfull
  rw [if_pos (by simpa using hfull)]
  simp [deleteKey_cons_self]

theorem evict_entries_slack (c : DataCache α)
    (hlt : c.entries.length < c.maxSize) :
    (c.evict).entries = c.entries := by
  unfold DataCache.evict
  simp [Nat.not_le.mpr hlt]

/-! ### Claims about the `DataCache` (C2, C7) -/

/-- C2 counterexample input: a cache at capacity (2 entries, `maxSize = 2`,
    set via `setMaxSize`) holding keys "a" (oldest) and "b". -/
def c2cache : DataCache Nat :=
  ⟨[("a", ⟨1, 0, 1000⟩), ("b", ⟨2, 0, 1000⟩)], 2, 300000⟩

/-- C2, counterexample: the claim says no eviction occurs when the written key
    is already present, but `set` evicts the oldest entry whenever
    `size >= maxSize` without checking key presence: writing the already
    present key "b" into a full cache evicts "a". -/
theorem DataCache.set_no_evict_when_present_cex :
    (lookupKey "b" c2cache.entries).isSome = true ∧
    c2cache.entries.length = c2cache.maxSize ∧
    (lookupKey "a" c2cache.entries).isSome = true ∧
    lookupKey "a" ((c2cache.set "b" 9 none 5).entries) = none := by decide

/-- C2 (amended): whenever the store is at or over capacity, `set` first
    evicts exactly the single oldest (least-recently-used) entry — even when
    the written key is already present; when additionally the key is new,
    exactly the LRU entry is evicted, every other entry is retained in order,
    and the new entry is appended as most-recently-used (so filling the cache
    with capacity + 1 distinct keys evicts exactly the least-recently-accessed
    entry); below capacity no eviction occurs. -/
theorem DataCache.set_lru_eviction (α : Type) (c : DataCache α) (k : String)
    (v : α) (e : Option Nat) (t : Nat) :
    (∀ x rest, c.entries = x :: rest → c.maxSize ≤ c.entries.length →
      (c.set k v e t).entries = mapSet k ⟨v, t, c.resolveExpiry e⟩ rest ∧
      (k ∉ c.entries.map Prod.fst →
        (c.set k v e t).entries = rest ++ [(k, ⟨v, t, c.resolveExpiry e⟩)]) ∧
      ((c.entries.map Prod.fst).Nodup → x.1 ≠ k →
        lookupKey x.1 (c.set k v e t).entries = none)) ∧
    (c.entries.length < c.maxSize →
      (c.set k v e t).entries = mapSet k ⟨v, t, c.resolveExpiry e⟩ c.entries)
    := by
  constructor
  · intro x rest hx hfull
    have hev : c.evict.entries = rest := evict_entries_full c x rest hx hfull
    have h1 : (c.set k v e t).entries = mapSet k ⟨v, t, c.resolveExpiry e⟩ rest := by
      rw [set_entries, hev]
    refine ⟨h1, ?_, ?_⟩
    · intro hnot
      have hrest : k ∉ rest.map Prod.fst := by
        intro hm
        exact hnot (by rw [hx]; simp [hm])
      rw [h1, mapSet_of_not_mem _ _ _ hrest]
    · intro hnd hne
      have hx1 : x.1 ∉ rest.map Prod.fst := by
        rw [hx] at hnd
        simp only [List.map_cons, List.nodup_cons] at hnd
        exact hnd.1
      rw [h1, lookup_mapSet_ne _ _ _ _ hne]
      exact lookup_eq_none_of_not_mem _ _ hx1
  · intro hlt
    rw [set_entries, evict_entries_slack c hlt]

/-- Witness for C2 (amended): a full 2-entry cache receiving a fresh key
    drops exactly its oldest entry and appends the new one. -/
theorem DataCache.set_lru_eviction_witness :
    (DataCache.set ⟨[("x", ⟨5, 0, 7⟩), ("y", ⟨6, 0, 7⟩)], 2, 100⟩
        "z" (9 : Nat) none 3).entries
      = [("y", ⟨6, 0, 7⟩), ("z", ⟨9, 3, 100⟩)] :=
  ((DataCache.set_lru_eviction Nat
      ⟨[("x", ⟨5, 0, 7⟩), ("y", ⟨6, 0, 7⟩)], 2, 100⟩ "z" 9 none 3).1
    ("x", ⟨5, 0, 7⟩) [("y", ⟨6, 0, 7⟩)] rfl (by decide)).2.1 (by decide)

/-- C7, counterexample: with an explicit expiry of `0`, `expiry ||
    defaultExpiry` silently stores the default (300000 ms), so a `get`
    performed 10 ms after the write — more than `e = 0` after it — still
    returns the value instead of reporting the entry expired. -/
theorem DataCache.get_after_expiry_cex :
    ((((DataCache.init Nat).set "k" 7 (some 0) 0).get "k" 10).2 = some 7)
      ∧ 0 < 10 - 0 := by decide

/-- C7 (amended): for every strictly positive expiry `e`, after
    `set(k, v, e)` at time `t0` a `get(k)` at time `t` with
    `t − t0 ≤ e` returns `v`; a `get(k)` with `t − t0 > e` returns absent and
    deletes the stale entry, so that a subsequent `has(k)` at any time is
    false. (Requires the cache's key list to be duplicate-free, an invariant
    of the `Map` representation.) -/
theorem DataCache.set_get_roundtrip (α : Type) (c : DataCache α)
    (hnd : (c.entries.map Prod.fst).Nodup)
    (k : String) (v : α) (e t0 t : Nat) (he : 0 < e) :
    (t - t0 ≤ e → ((c.set k v (some e) t0).get k t).2 = some v) ∧
    (e < t - t0 →
      ((c.set k v (some e) t0).get k t).2 = none ∧
      ∀ t3, ((((c.set k v (some e) t0).get k t).1).has k t3).2 = false) := by
  have hexp : c.resolveExpiry (some e) = e := by
    simp [DataCache.resolveExpiry, Nat.pos_iff_ne_zero.mp he]
  have hlook : lookupKey k (c.set k v (some e) t0).entries = some ⟨v, t0, e⟩ := by
    rw [set_entries, hexp]
    exact lookup_mapSet_self k _ _
  have hnd2 : (((c.set k v (some e) t0).entries).map Prod.fst).Nodup :=
    nodup_keys_set c k v (some e) t0 hnd
  constructor
  · intro hle
    simp [DataCache.get, hlook, Nat.not_lt.mpr hle]
  · intro hgt
    constructor
    · simp [DataCache.get, hlook, hgt]
    · intro t3
      have hdel : ((c.set k v (some e) t0).get k t).1.entries
          = deleteKey k (c.set k v (some e) t0).entries := by
        simp [DataCache.get, hlook, hgt]
      simp [DataCache.has, hdel, lookup_deleteKey_self k _ hnd2]

/-- Witness for C7 (amended): a value stored at time 0 with expiry 1 ms is
    gone when read at time 2. -/
theorem DataCache.set_get_roundtrip_witness :
    ((((DataCache.init Nat).set "k" 7 (some 1) 0).get "k" 2).2 = none) :=
  ((DataCache.set_get_roundtrip Nat (DataCache.init Nat) (by simp [DataCache.init])
      "k" 7 1 0 2 (by decide)).2 (by decide)).1

/-! ### `WebSocketManager` (src/lib/kline/WebSocketManager.ts) -/

/-- `WebSocketState` of `src/lib/kline/types.ts`. -/
inductive WebSocketState where
  | CONNECTING
  | CONNECTED
  | DISCONNECTED
  | RECONNECTING
  | FAILED
  deriving DecidableEq, Repr

/-- `WebSocketSubscription`: one logical stream. Callbacks are abstracted to
    their count (`callbacks.size`), which is all the reconnect logic reads. -/
structure WebSocketSubscription where
  key : String
  url : String
  callbacksSize : Nat
  state : WebSocketState
  reconnectAttempts : Nat
  maxReconnectAttempts : Nat
  deriving DecidableEq, Repr

/-- The manager's subscription registry (`Map<string, WebSocketSubscription>`)
    — the piece of `WebSocketManager` state the reconnect logic touches. -/
structure WSManager where
  subscriptions : List (String × WebSocketSubscription)
  deriving Repr

namespace WSManager

/-- `WebSocketManager.getState(key)`: `subscriptions.get(key)?.state`. -/
def getState (m : WSManager) (key : String) : Option WebSocketState :=
  (lookupKey key m.subscriptions).map (·.state)

/-- `WebSocketManager.scheduleReconnect(key)` acting on one subscription
    record: returns the updated record and the delay (ms) of the scheduled
    `setTimeout`, or `none` when no reconnect is scheduled. If the attempt
    counter has reached `maxReconnectAttempts` the state becomes `FAILED` and
    nothing is scheduled; otherwise the counter is incremented, the state
    becomes `RECONNECTING`, and the timer delay is
    `min(1000 * 2^(reconnectAttempts - 1), 16000)`. -/
def scheduleReconnectSub (s : WebSocketSubscription) :
    WebSocketSubscription × Option Nat :=
  if s.reconnectAttempts ≥ s.maxReconnectAttempts then
    ({ s with state := WebSocketState.FAILED }, none)
  else
    let s1 := { s with
      reconnectAttempts := s.reconnectAttempts + 1,
      state := WebSocketState.RECONNECTING }
    (s1, some (min (1000 * 2 ^ (s1.reconnectAttempts - 1)) 16000))

/-- `WebSocketManager.scheduleReconnect(key)` on the registry: looks the
    subscription up (returning unchanged with nothing scheduled when absent,
    as the early `return`) and stores the mutated record back. -/
def scheduleReconnect (m : WSManager) (key : String) :
    WSManager × Option Nat :=
  match lookupKey key m.subscriptions with
  | none => (m, none)
  | some s =>
      let r := scheduleReconnectSub s
      (⟨mapSet key r.1 m.subscriptions⟩, r.2)

/-- The `ws.onclose` handler for the subscription with the given key: state
    becomes `DISCONNECTED`, and a reconnect is scheduled only while listeners
    remain (`callbacks.size > 0`). -/
def onClose (m : WSManager) (key : String) : WSManager × Option Nat :=
  match lookupKey key m.subscriptions with
  | none => (m, none)
  | some s =>
      let s1 := { s with state := WebSocketState.DISCONNECTED }
      let m1 : WSManager := ⟨mapSet key s1 m.subscriptions⟩
      if s1.callbacksSize > 0 then scheduleReconnect m1 key
      else (m1, none)

/-- The fresh subscription record created by `subscribe` for a new key
    (`maxReconnectAttempts` defaults to 5). -/
def newSubscription (key url : String) (maxReconnectAttempts : Nat := 5) :
    WebSocketSubscription :=
  ⟨key, url, 1, WebSocketState.CONNECTING, 0, maxReconnectAttempts⟩

end WSManager

/-- C1: for every subscription whose socket closes while listeners remain
    (`callbacks.size > 0` in `ws.onclose`), the reconnect delay scheduled for
    attempt `n = reconnectAttempts + 1` equals
    `min(1000 * 2^(n-1), 16000)` ms, and once the attempt counter has reached
    `maxReconnectAttempts`, the next scheduling call sets the subscription
    state to FAILED and schedules no further reconnect, observable via
    `getState(key)`. -/
theorem WSManager.reconnect_backoff (m : WSManager) (key : String)
    (s : WebSocketSubscription)
    (hs : lookupKey key m.subscriptions = some s)
    (hl : 0 < s.callbacksSize) :
    (s.reconnectAttempts < s.maxReconnectAttempts →
      (m.onClose key).2
          = some (min (1000 * 2 ^ ((s.reconnectAttempts + 1) - 1)) 16000) ∧
      (m.onClose key).1.getState key = some WebSocketState.RECONNECTING) ∧
    (s.maxReconnectAttempts ≤ s.reconnectAttempts →
      (m.onClose key).2 = none ∧
      (m.onClose key).1.getState key = some WebSocketState.FAILED) := by
  constructor
  · intro hlt
    simp [WSManager.onClose, hs, hl, WSManager.scheduleReconnect,
      lookup_mapSet_self, WSManager.scheduleReconnectSub,
      Nat.not_le.mpr hlt, WSManager.getState]
  · intro hge
    simp [WSManager.onClose, hs, hl, WSManager.scheduleReconnect,
      lookup_mapSet_self, WSManager.scheduleReconnectSub, hge,
      WSManager.getState]

/-- Witness for C1: from a subscription with `maxReconnectAttempts = 5` (the
    default) and 4 attempts consumed, the close handler schedules attempt 5
    with the capped 16000 ms delay; with the counter at 5 it gives up, the
    state observable as FAILED. -/
theorem WSManager.reconnect_backoff_witness :
    (WSManager.onClose
        ⟨[("k", ⟨"k", "u", 1, WebSocketState.DISCONNECTED, 4, 5⟩)]⟩ "k").2
      = some 16000 ∧
    (WSManager.onClose
        ⟨[("k", ⟨"k", "u", 1, WebSocketState.DISCONNECTED, 5, 5⟩)]⟩ "k").2
      = none ∧
    (WSManager.onClose
        ⟨[("k", ⟨"k", "u", 1, WebSocketState.DISCONNECTED, 5, 5⟩)]⟩
        "k").1.getState "k"
      = some WebSocketState.FAILED := by
  refine ⟨?_, ?_, ?_⟩
  · exact ((WSManager.reconnect_backoff
      ⟨[("k", ⟨"k", "u", 1, WebSocketState.DISCONNECTED, 4, 5⟩)]⟩ "k"
      ⟨"k", "u", 1, WebSocketState.DISCONNECTED, 4, 5⟩ (by decide)
      (by decide)).1 (by decide)).1
  · exact ((WSManager.reconnect_backoff
      ⟨[("k", ⟨"k", "u", 1, WebSocketState.DISCONNECTED, 5, 5⟩)]⟩ "k"
      ⟨"k", "u", 1, WebSocketState.DISCONNECTED, 5, 5⟩ (by decide)
      (by decide)).2 (by decide)).1
  · exact ((WSManager.reconnect_backoff
      ⟨[("k", ⟨"k", "u", 1, WebSocketState.DISCONNECTED, 5, 5⟩)]⟩ "k"
      ⟨"k", "u", 1, WebSocketState.DISCONNECTED, 5, 5⟩ (by decide)
      (by decide)).2 (by decide)).2

/-- The inner per-listener `try { callback(data) } catch { console.error }`
    of `ws.onmessage`: a throwing callback is caught, its error only logged. -/
def runListener (cb : μ → Except ε Unit) (d : μ) : Option ε :=
  match cb d with
  | Except.ok _ => none
  | Except.error e => some e

/-- The `ws.onmessage` handler: `JSON.parse` the frame (a parse failure is
    caught by the outer try/catch and only logged — empty trace), then
    `callbacks.forEach` with the per-listener try/catch. The result is the
    delivery trace: one `(parsed message, logged error?)` entry per
    registered listener, in registration order. -/
def dispatchMessage (parseJson : String → Option μ)
    (callbacks : List (μ → Except ε Unit)) (raw : String) :
    List (μ × Option ε) :=
  match parseJson raw with
  | none => []
  | some d => callbacks.map (fun cb => (d, runListener cb d))

/-- C8: every parseable inbound message is delivered to every registered
    listener — the trace has exactly one entry per listener, in order, each
    carrying the parsed message — and a listener that throws contributes only
    a logged error to its own entry: it does not prevent delivery to any
    other listener and is never rethrown out of the dispatch loop (the
    dispatch function is total and equals the full per-listener map no matter
    which listeners fail). -/
theorem WSManager.dispatch_isolates_listener_errors {μ ε : Type}
    (parseJson : String → Option μ) (callbacks : List (μ → Except ε Unit))
    (raw : String) (d : μ) (h : parseJson raw = some d) :
    (dispatchMessage parseJson callbacks raw).length = callbacks.length ∧
    dispatchMessage parseJson callbacks raw
      = callbacks.map (fun cb => (d, runListener cb d)) ∧
    ∀ p ∈ dispatchMessage parseJson callbacks raw, p.1 = d := by
  refine ⟨?_, ?_, ?_⟩
  · simp [dispatchMessage, h]
  · simp [dispatchMessage, h]
  · intro p hp
    simp only [dispatchMessage, h, List.mem_map] at hp
    obtain ⟨cb, _, rfl⟩ := hp
    rfl

/-- Witness for C8: two listeners, the first of which throws; both appear in
    the trace, the second still succeeding. -/
theorem WSManager.dispatch_isolates_listener_errors_witness :
    dispatchMessage (fun r : String => some r.length)
      [fun _ : Nat => Except.error "boom", fun _ : Nat => Except.ok ()] "abc"
      = [(3, some "boom"), (3, none)] :=
  (WSManager.dispatch_isolates_listener_errors
    (fun r : String => some r.length)
    [fun _ : Nat => Except.error "boom", fun _ : Nat => Except.ok ()]
    "abc" 3 rfl).2.1

/-! ### Candle data and the query-cache merge (src/hooks/useKlineData.ts) -/

/-- `CandlestickData` of `src/lib/kline/types.ts`: `time` is the Unix time in
    whole seconds (`Math.floor(ms / 1000)`), OHLC are the parsed numeric
    prices (field names follow the locals of `parseKlineData`; `open` is a
    Lean keyword). -/
structure CandlestickData where
  time : Int
  openPrice : ℚ
  highPrice : ℚ
  lowPrice : ℚ
  closePrice : ℚ
  deriving DecidableEq, Repr

/-- The `queryClient.setQueryData` updater of `useKlineSubscription`: with no
    cached series the cache is left untouched; otherwise the incoming candle
    replaces the last cached candle when the `time`s match (`lastCandle &&
    lastCandle.time === data.time`; an empty series has no truthy last
    element) and is appended otherwise. -/
def mergeKlineUpdate (oldData : Option (List CandlestickData))
    (data : CandlestickData) : Option (List CandlestickData) :=
  match oldData with
  | none => none
  | some old =>
      match old.getLast? with
      | some lastCandle =>
          if lastCandle.time = data.time then some (old.dropLast ++ [data])
          else some (old ++ [data])
      | none => some (old ++ [data])

/-- C9: for a non-empty cached candle series, an update whose `time` equals
    the last candle's `time` replaces that last candle (same length), and an
    update with a strictly greater `time` is appended as a new last candle
    (length + 1). -/
theorem mergeKlineUpdate_replace_or_append (old : List CandlestickData)
    (data lastC : CandlestickData) (hne : old ≠ [])
    (hl : old.getLast? = some lastC) :
    (lastC.time = data.time →
      mergeKlineUpdate (some old) data = some (old.dropLast ++ [data]) ∧
      (old.dropLast ++ [data]).length = old.length) ∧
    (lastC.time < data.time →
      mergeKlineUpdate (some old) data = some (old ++ [data]) ∧
      (old ++ [data]).length = old.length + 1) := by
  have hpos : 0 < old.length := List.length_pos.mpr hne
  constructor
  · intro heq
    constructor
    · simp [mergeKlineUpdate, hl, heq]
    · simp [List.length_dropLast]
      omega
  · intro hlt
    constructor
    · simp [mergeKlineUpdate, hl, ne_of_lt hlt]
    · simp

/-- Witness for C9: series ending at time 20 — an update at time 20 replaces
    the last candle, an update at time 30 extends the series. -/
theorem mergeKlineUpdate_replace_or_append_witness :
    mergeKlineUpdate (some [⟨10, 1, 2, 3, 4⟩, ⟨20, 5, 6, 7, 8⟩])
        ⟨20, 9, 9, 9, 9⟩
      = some [⟨10, 1, 2, 3, 4⟩, ⟨20, 9, 9, 9, 9⟩] ∧
    mergeKlineUpdate (some [⟨10, 1, 2, 3, 4⟩, ⟨20, 5, 6, 7, 8⟩])
        ⟨30, 9, 9, 9, 9⟩
      = some [⟨10, 1, 2, 3, 4⟩, ⟨20, 5, 6, 7, 8⟩, ⟨30, 9, 9, 9, 9⟩] :=
  ⟨((mergeKlineUpdate_replace_or_append
      [⟨10, 1, 2, 3, 4⟩, ⟨20, 5, 6, 7, 8⟩] ⟨20, 9, 9, 9, 9⟩ ⟨20, 5, 6, 7, 8⟩
      (by decide) (by decide)).1 rfl).1,
   ((mergeKlineUpdate_replace_or_append
      [⟨10, 1, 2, 3, 4⟩, ⟨20, 5, 6, 7, 8⟩] ⟨30, 9, 9, 9, 9⟩ ⟨20, 5, 6, 7, 8⟩
      (by decide) (by decide)).2 (by decide)).1⟩

/-! ### `BinanceDataSource` (REST path): parsing, retries, caching -/

/-- A JSON value as seen by `fetchHistoricalInternal` / `parseKlineData`:
    either an array, or a primitive abstracted by its JS `Number(...)`
    conversion (`none` when that conversion is `NaN`). -/
inductive RawVal where
  | prim (n : Option ℚ)
  | arr (elems : List RawVal)

/-- JS `Number(x)` on a kline cell: primitives carry their own conversion;
    an array converts via its comma-joined string, so `[]` is `0`, a
    singleton converts as its element, and longer arrays are `NaN`. -/
def toNumber : RawVal → Option ℚ
  | RawVal.prim n => n
  | RawVal.arr [] => some 0
  | RawVal.arr [x] => toNumber x
  | RawVal.arr (_ :: _ :: _) => none

/-- `DataSourceError` of `src/lib/kline/types.ts`: the error `code` plus the
    optional `originalError` it wraps. -/
inductive DataSourceError where
  | mk (code : String) (originalError : Option DataSourceError)

/-- The `code` field of a `DataSourceError`. -/
def DataSourceError.code : DataSourceError → String
  | DataSourceError.mk c _ => c

/-- Structural decidable equality for `DataSourceError` (the nested `Option`
    defeats automatic derivation). -/
def DataSourceError.deq : (a b : DataSourceError) → Decidable (a = b)
  | DataSourceError.mk c1 o1, DataSourceError.mk c2 o2 =>
    match String.decEq c1 c2 with
    | isFalse h => isFalse (by simp [h])
    | isTrue h1 =>
      match o1, o2 with
      | none, none => isTrue (by rw [h1])
      | none, some _ => isFalse (by simp)
      | some _, none => isFalse (by simp)
      | some x, some y =>
        match DataSourceError.deq x y with
        | isTrue h2 => isTrue (by rw [h1, h2])
        | isFalse h2 => isFalse (by simp [h2])

instance : DecidableEq DataSourceError := DataSourceError.deq

/-- Decidable equality on `Except`, for evaluating concrete fetch results. -/
def exceptDeq {ε α : Type} [DecidableEq ε] [DecidableEq α] :
    (a b : Except ε α) → Decidable (a = b)
  | Except.ok a, Except.ok b =>
    match decEq a b with
    | isTrue h => isTrue (by rw [h])
    | isFalse h => isFalse (by simp [h])
  | Except.ok _, Except.error _ => isFalse (by simp)
  | Except.error _, Except.ok _ => isFalse (by simp)
  | Except.error e1, Except.error e2 =>
    match decEq e1 e2 with
    | isTrue h => isTrue (by rw [h])
    | isFalse h => isFalse (by simp [h])

instance {ε α : Type} [DecidableEq ε] [DecidableEq α] :
    DecidableEq (Except ε α) := exceptDeq

/-- `BinanceDataSource.parseKlineData(kline)`: reject a row that is not an
    array or has fewer than 6 elements (`PARSE_ERROR`); otherwise destructure
    the first five cells `[openTime, open, high, low, close]`, convert with
    `Number(...)` (`time = Math.floor(Number(openTime) / 1000)`), and reject
    with `PARSE_ERROR` when any conversion is `NaN`. -/
def parseKlineData (kline : RawVal) :
    Except DataSourceError CandlestickData :=
  match kline with
  | RawVal.prim _ =>
      Except.error (DataSourceError.mk "PARSE_ERROR" none)
  | RawVal.arr cells =>
      match cells with
      | c0 :: c1 :: c2 :: c3 :: c4 :: _ :: _ =>
          match toNumber c0, toNumber c1, toNumber c2,
              toNumber c3, toNumber c4 with
          | some t, some o, some h, some l, some c =>
              Except.ok ⟨(t / 1000).floor, o, h, l, c⟩
          | _, _, _, _, _ =>
              Except.error (DataSourceError.mk "PARSE_ERROR" none)
      | _ => Except.error (DataSourceError.mk "PARSE_ERROR" none)

/-- One REST reply as consumed by `fetchHistoricalInternal`: the `ok` flag of
    the `fetch` response plus the decoded JSON body. -/
structure RestResponse where
  ok : Bool
  body : RawVal

/-- JS `data.map(kline => parseKlineData(kline))`: the first row whose parse
    throws aborts the whole map with that error. -/
def mapParse : List RawVal → Except DataSourceError (List CandlestickData)
  | [] => Except.ok []
  | r :: rest =>
      match parseKlineData r with
      | Except.error e => Except.error e
      | Except.ok c => (mapParse rest).map (fun cs => c :: cs)

/-- `BinanceDataSource.fetchHistoricalInternal`: a non-2xx response raises
    `HTTP_ERROR`; a top-level non-array body raises `INVALID_FORMAT`;
    otherwise `data.map(parseKlineData)` — the first row that throws aborts
    the whole map. -/
def fetchHistoricalInternal (r : RestResponse) :
    Except DataSourceError (List CandlestickData) :=
  if r.ok then
    match r.body with
    | RawVal.prim _ =>
        Except.error (DataSourceError.mk "INVALID_FORMAT" none)
    | RawVal.arr rows => mapParse rows
  else Except.error (DataSourceError.mk "HTTP_ERROR" none)

/-- `MAX_RETRIES` of `BinanceDataSource`. -/
def MAX_RETRIES : Nat := 3

/-- `RETRY_DELAY` of `BinanceDataSource` (ms). -/
def RETRY_DELAY : Nat := 1000

/-- The `for (attempt = 1; attempt <= MAX_RETRIES; attempt++)` retry loop of
    `fetchHistorical`, with the per-attempt REST outcome supplied by
    `responses` (indexed by 1-based attempt number). Returns the final result
    — the data of the first successful attempt, or the terminal
    `FETCH_FAILED` error wrapping the last attempt's error — together with
    the list of back-off delays awaited (`RETRY_DELAY * attempt` after each
    failed non-final attempt, in order). -/
def fetchAttempts (responses : Nat → RestResponse) :
    Nat → Nat → Option DataSourceError →
    Except DataSourceError (List CandlestickData) × List Nat
  | _, 0, lastError =>
      (Except.error (DataSourceError.mk "FETCH_FAILED" lastError), [])
  | attempt, remaining + 1, _ =>
      match fetchHistoricalInternal (responses attempt) with
      | Except.ok data => (Except.ok data, [])
      | Except.error e =>
          let res := fetchAttempts responses (attempt + 1) remaining (some e)
          (res.1,
           if remaining = 0 then res.2 else RETRY_DELAY * attempt :: res.2)

/-- The cache key of `fetchHistorical`:
    `${symbol.toLowerCase()}_${interval}_${limit}`. -/
def cacheKeyOf (symbol interval : String) (limit : Nat) : String :=
  symbol.toLower ++ "_" ++ interval ++ "_" ++ toString limit

/-- `BinanceDataSource.fetchHistorical(symbol, interval, limit)`: consult the
    cache (when `enableCache`), on a miss run the retry loop, and write a
    successful result back to the cache under
    `symbol.toLowerCase() + "_" + interval + "_" + limit` with the configured
    expiry before returning it. Returns (result, awaited delays, cache
    after). -/
def fetchHistorical (cache : DataCache (List CandlestickData))
    (enableCache : Bool) (cacheExpiry : Nat) (symbol interval : String)
    (limit : Nat) (responses : Nat → RestResponse) (now : Nat) :
    Except DataSourceError (List CandlestickData) × List Nat
      × DataCache (List CandlestickData) :=
  let cacheKey := cacheKeyOf symbol interval limit
  let hit := if enableCache then cache.get cacheKey now else (cache, none)
  match hit.2 with
  | some data => (Except.ok data, [], hit.1)
  | none =>
      let res := fetchAttempts responses 1 MAX_RETRIES none
      match res.1 with
      | Except.ok data =>
          (Except.ok data, res.2,
           if enableCache then hit.1.set cacheKey data (some cacheExpiry) now
           else hit.1)
      | Except.error e => (Except.error e, res.2, hit.1)

/-! ### Claims C3 and C10: per-record parse failures -/

theorem mapParse_error_of_mem (rows : List RawVal) (r : RawVal)
    (e : DataSourceError) (hr : r ∈ rows)
    (he : parseKlineData r = Except.error e) :
    ∃ e2, mapParse rows = Except.error e2 := by
  induction rows with
  | nil => cases hr
  | cons hd tl ih =>
    rcases List.mem_cons.mp hr with rfl | hmem
    · exact ⟨e, by simp [mapParse, he]⟩
    · cases hhd : parseKlineData hd with
      | error e0 => exact ⟨e0, by simp [mapParse, hhd]⟩
      | ok c =>
          obtain ⟨e2, h2⟩ := ih hmem
          exact ⟨e2, by simp [mapParse, hhd, h2, Except.map]⟩

theorem mapParse_ok_of_all (rows : List RawVal)
    (h : ∀ r ∈ rows, ∃ c, parseKlineData r = Except.ok c) :
    ∃ cs, mapParse rows = Except.ok cs ∧ cs.length = rows.length := by
  induction rows with
  | nil => exact ⟨[], rfl, rfl⟩
  | cons hd tl ih =>
    obtain ⟨c, hc⟩ := h hd (List.mem_cons_self hd tl)
    obtain ⟨cs, hcs, hlen⟩ := ih (fun r hr => h r (List.mem_cons_of_mem hd hr))
    exact ⟨c :: cs, by simp [mapParse, hc, hcs, Except.map], by simp [hlen]⟩

/-- A 6-cell kline row whose numeric fields all parse. -/
def goodRow : RawVal :=
  RawVal.arr [RawVal.prim (some 1000), RawVal.prim (some 1),
    RawVal.prim (some 2), RawVal.prim (some (1 / 2)),
    RawVal.prim (some 3), RawVal.prim (some 0)]

/-- A 6-cell kline row whose `open` cell converts to `NaN`. -/
def badRow : RawVal :=
  RawVal.arr [RawVal.prim (some 1000), RawVal.prim none,
    RawVal.prim (some 2), RawVal.prim (some 1),
    RawVal.prim (some 3), RawVal.prim (some 0)]

theorem parse_goodRow_eq :
    parseKlineData goodRow = Except.ok ⟨1, 1, 2, 1 / 2, 3⟩ := by
  show (Except.ok ⟨((1000 : ℚ) / 1000).floor, 1, 2, 1 / 2, 3⟩ :
      Except DataSourceError CandlestickData)
    = Except.ok ⟨1, 1, 2, 1 / 2, 3⟩
  rw [show ((1000 : ℚ) / 1000) = 1 by norm_num]
  rfl

/-- C3, counterexample: a top-level array response containing one well-formed
    record and one record with an unparseable numeric field. The claim says
    the well-formed record is still returned; in fact the per-record
    `PARSE_ERROR` aborts the whole `map`, every attempt fails, and
    `fetchHistorical` returns only the terminal `FETCH_FAILED` error — no
    record at all is returned. -/
theorem fetchHistorical_record_error_cex :
    parseKlineData goodRow = Except.ok ⟨1, 1, 2, 1 / 2, 3⟩ ∧
    fetchHistoricalInternal ⟨true, RawVal.arr [goodRow, badRow]⟩
      = Except.error (DataSourceError.mk "PARSE_ERROR" none) ∧
    (fetchHistorical (DataCache.init _) true 300000 "x" "1m" 2
        (fun _ => ⟨true, RawVal.arr [goodRow, badRow]⟩) 0).1
      = Except.error (DataSourceError.mk "FETCH_FAILED"
          (some (DataSourceError.mk "PARSE_ERROR" none))) :=
  ⟨parse_goodRow_eq, rfl, rfl⟩

/-- C3 (amended): a record that fails numeric parsing invalidates the whole
    fetch attempt, not only that record — whenever any row of a top-level
    array response fails to parse, `fetchHistoricalInternal` raises an error
    (so no records of that response are returned); the full parsed list is
    returned exactly when every record parses; and a top-level non-array
    response invalidates the fetch with `INVALID_FORMAT`. -/
theorem fetchHistoricalInternal_error_propagation (rows : List RawVal) :
    (∀ r e, r ∈ rows → parseKlineData r = Except.error e →
      ∃ e2, fetchHistoricalInternal ⟨true, RawVal.arr rows⟩
        = Except.error e2) ∧
    ((∀ r ∈ rows, ∃ c, parseKlineData r = Except.ok c) →
      ∃ cs, fetchHistoricalInternal ⟨true, RawVal.arr rows⟩ = Except.ok cs ∧
        cs.length = rows.length) ∧
    (∀ n, fetchHistoricalInternal ⟨true, RawVal.prim n⟩
      = Except.error (DataSourceError.mk "INVALID_FORMAT" none)) := by
  refine ⟨?_, ?_, ?_⟩
  · intro r e hr he
    obtain ⟨e2, h2⟩ := mapParse_error_of_mem rows r e hr he
    exact ⟨e2, by simp [fetchHistoricalInternal, h2]⟩
  · intro h
    obtain ⟨cs, hcs, hlen⟩ := mapParse_ok_of_all rows h
    exact ⟨cs, by simp [fetchHistoricalInternal, hcs], hlen⟩
  · intro n
    rfl

/-- Witness for C3 (amended): the two-row response of the counterexample
    yields an error, and the single-good-row response yields exactly one
    candle. -/
theorem fetchHistoricalInternal_error_propagation_witness :
    (∃ e2, fetchHistoricalInternal ⟨true, RawVal.arr [goodRow, badRow]⟩
      = Except.error e2) ∧
    (∃ cs, fetchHistoricalInternal ⟨true, RawVal.arr [goodRow]⟩
      = Except.ok cs ∧ cs.length = [goodRow].length) :=
  ⟨(fetchHistoricalInternal_error_propagation [goodRow, badRow]).1 badRow
      (DataSourceError.mk "PARSE_ERROR" none) (by simp) rfl,
   (fetchHistoricalInternal_error_propagation [goodRow]).2.1
      (fun r hr => ⟨⟨1, 1, 2, 1 / 2, 3⟩, by
        rcases List.mem_singleton.mp hr with rfl
        exact parse_goodRow_eq⟩)⟩

/-- C10: `parseKlineData` raises `PARSE_ERROR` for every row that is not an
    array and for every array row with fewer than 6 cells — in particular a
    row holding exactly the five consumed fields
    `[openTimeMs, open, high, low, close]` is rejected even though only those
    five are ever read. -/
theorem parseKlineData_rejects_short_rows :
    (∀ n, parseKlineData (RawVal.prim n)
      = Except.error (DataSourceError.mk "PARSE_ERROR" none)) ∧
    (∀ cells, cells.length < 6 → parseKlineData (RawVal.arr cells)
      = Except.error (DataSourceError.mk "PARSE_ERROR" none)) := by
  refine ⟨fun n => rfl, ?_⟩
  intro cells hlen
  rcases cells with _ | ⟨a, _ | ⟨b, _ | ⟨c, _ | ⟨d, _ | ⟨e, _ | ⟨f, rest⟩⟩⟩⟩⟩⟩
  · rfl
  · rfl
  · rfl
  · rfl
  · rfl
  · rfl
  · exfalso
    simp [List.length_cons] at hlen
    omega

/-- Witness for C10: a row with exactly the five consumed numeric fields is
    rejected with `PARSE_ERROR`. -/
theorem parseKlineData_rejects_short_rows_witness :
    parseKlineData (RawVal.arr [RawVal.prim (some 1000),
        RawVal.prim (some 1), RawVal.prim (some 2), RawVal.prim (some 1),
        RawVal.prim (some 3)])
      = Except.error (DataSourceError.mk "PARSE_ERROR" none) :=
  parseKlineData_rejects_short_rows.2
    [RawVal.prim (some 1000), RawVal.prim (some 1), RawVal.prim (some 2),
      RawVal.prim (some 1), RawVal.prim (some 3)] (by simp)

/-! ### Claim C4: the retry loop of `fetchHistorical` -/

theorem fetchAttempts_zero (responses : Nat → RestResponse) (attempt : Nat)
    (last : Option DataSourceError) :
    fetchAttempts responses attempt 0 last
      = (Except.error (DataSourceError.mk "FETCH_FAILED" last), []) := rfl

theorem fetchAttempts_succ (responses : Nat → RestResponse)
    (attempt remaining : Nat) (last : Option DataSourceError) :
    fetchAttempts responses attempt (remaining + 1) last
      = match fetchHistoricalInternal (responses attempt) with
        | Except.ok data => (Except.ok data, [])
        | Except.error e =>
            ((fetchAttempts responses (attempt + 1) remaining (some e)).1,
             if remaining = 0 then
               (fetchAttempts responses (attempt + 1) remaining (some e)).2
             else RETRY_DELAY * attempt
               :: (fetchAttempts responses (attempt + 1) remaining (some e)).2)
      := rfl

theorem fetchAttempts_ext (r1 r2 : Nat → RestResponse)
    (attempt remaining : Nat) (last : Option DataSourceError)
    (h : ∀ i, attempt ≤ i → i < attempt + remaining → r2 i = r1 i) :
    fetchAttempts r2 attempt remaining last
      = fetchAttempts r1 attempt remaining last := by
  induction remaining generalizing attempt last with
  | zero => rfl
  | succ n ih =>
    rw [fetchAttempts_succ, fetchAttempts_succ,
      h attempt le_rfl (by omega)]
    cases hfi : fetchHistoricalInternal (r1 attempt) with
    | ok d => rfl
    | error e =>
        have hrec := ih (attempt + 1) (some e)
          (fun i hi1 hi2 => h i (by omega) (by omega))
        simp [hrec]

theorem fetchAttempts_first_ok (responses : Nat → RestResponse)
    (data : List CandlestickData)
    (h1 : fetchHistoricalInternal (responses 1) = Except.ok data) :
    fetchAttempts responses 1 MAX_RETRIES none = (Except.ok data, []) := by
  simp [fetchAttempts, MAX_RETRIES, h1]

theorem fetchAttempts_second_ok (responses : Nat → RestResponse)
    (e1 : DataSourceError) (data : List CandlestickData)
    (h1 : fetchHistoricalInternal (responses 1) = Except.error e1)
    (h2 : fetchHistoricalInternal (responses 2) = Except.ok data) :
    fetchAttempts responses 1 MAX_RETRIES none
      = (Except.ok data, [1000]) := by
  simp [fetchAttempts, MAX_RETRIES, RETRY_DELAY, h1, h2]

theorem fetchAttempts_third_ok (responses : Nat → RestResponse)
    (e1 e2 : DataSourceError) (data : List CandlestickData)
    (h1 : fetchHistoricalInternal (responses 1) = Except.error e1)
    (h2 : fetchHistoricalInternal (responses 2) = Except.error e2)
    (h3 : fetchHistoricalInternal (responses 3) = Except.ok data) :
    fetchAttempts responses 1 MAX_RETRIES none
      = (Except.ok data, [1000, 2000]) := by
  simp [fetchAttempts, MAX_RETRIES, RETRY_DELAY, h1, h2, h3]

theorem fetchAttempts_all_fail (responses : Nat → RestResponse)
    (e1 e2 e3 : DataSourceError)
    (h1 : fetchHistoricalInternal (responses 1) = Except.error e1)
    (h2 : fetchHistoricalInternal (responses 2) = Except.error e2)
    (h3 : fetchHistoricalInternal (responses 3) = Except.error e3) :
    fetchAttempts responses 1 MAX_RETRIES none
      = (Except.error (DataSourceError.mk "FETCH_FAILED" (some e3)),
         [1000, 2000]) := by
  simp [fetchAttempts, MAX_RETRIES, RETRY_DELAY, h1, h2, h3]

theorem fetchHistorical_miss (cache : DataCache (List CandlestickData))
    (enableCache : Bool) (cacheExpiry : Nat) (symbol interval : String)
    (limit : Nat) (responses : Nat → RestResponse) (now : Nat)
    (hmiss : (cache.get (cacheKeyOf symbol interval limit) now).2 = none) :
    fetchHistorical cache enableCache cacheExpiry symbol interval limit
        responses now
      = (let hit := if enableCache then
            cache.get (cacheKeyOf symbol interval limit) now
          else (cache, none)
         let res := fetchAttempts responses 1 MAX_RETRIES none
         match res.1 with
         | Except.ok data =>
             (Except.ok data, res.2,
              if enableCache then
                hit.1.set (cacheKeyOf symbol interval limit) data
                  (some cacheExpiry) now
              else hit.1)
         | Except.error e => (Except.error e, res.2, hit.1)) := by
  have hhit : (if enableCache then
      cache.get (cacheKeyOf symbol interval limit) now
    else (cache, none)).2 = none := by
    cases enableCache <;> simp [hmiss]
  simp only [fetchHistorical]
  rw [hhit]

/-- C4: on a cache miss, `fetchHistorical` (a) consults only the responses of
    attempts 1..3 (at most 3 fetch attempts); (b) returns the first
    successful attempt's parsed data, having awaited `attempt * 1000` ms
    after each failed non-final attempt, and — when caching is enabled —
    having written the data to the cache before returning; (c) when all 3
    attempts fail, raises the terminal `FETCH_FAILED` error carrying the
    third (last) attempt's error as its underlying cause, after delays
    `[1000, 2000]`. -/
theorem fetchHistorical_retry_policy
    (cache : DataCache (List CandlestickData)) (enableCache : Bool)
    (cacheExpiry : Nat) (symbol interval : String) (limit : Nat)
    (responses : Nat → RestResponse) (now : Nat)
    (hmiss : (cache.get (cacheKeyOf symbol interval limit) now).2 = none) :
    (∀ responses2 : Nat → RestResponse,
      (∀ i, 1 ≤ i → i ≤ MAX_RETRIES → responses2 i = responses i) →
      fetchHistorical cache enableCache cacheExpiry symbol interval limit
          responses2 now
        = fetchHistorical cache enableCache cacheExpiry symbol interval limit
            responses now) ∧
    (∀ data, fetchHistoricalInternal (responses 1) = Except.ok data →
      (fetchHistorical cache enableCache cacheExpiry symbol interval limit
          responses now).1 = Except.ok data ∧
      (fetchHistorical cache enableCache cacheExpiry symbol interval limit
          responses now).2.1 = [] ∧
      (enableCache = true → ∃ item,
        lookupKey (cacheKeyOf symbol interval limit)
          (fetchHistorical cache enableCache cacheExpiry symbol interval limit
            responses now).2.2.entries = some item ∧ item.data = data)) ∧
    (∀ e1 data, fetchHistoricalInternal (responses 1) = Except.error e1 →
      fetchHistoricalInternal (responses 2) = Except.ok data →
      (fetchHistorical cache enableCache cacheExpiry symbol interval limit
          responses now).1 = Except.ok data ∧
      (fetchHistorical cache enableCache cacheExpiry symbol interval limit
          responses now).2.1 = [1000] ∧
      (enableCache = true → ∃ item,
        lookupKey (cacheKeyOf symbol interval limit)
          (fetchHistorical cache enableCache cacheExpiry symbol interval limit
            responses now).2.2.entries = some item ∧ item.data = data)) ∧
    (∀ e1 e2 data, fetchHistoricalInternal (responses 1) = Except.error e1 →
      fetchHistoricalInternal (responses 2) = Except.error e2 →
      fetchHistoricalInternal (responses 3) = Except.ok data →
      (fetchHistorical cache enableCache cacheExpiry symbol interval limit
          responses now).1 = Except.ok data ∧
      (fetchHistorical cache enableCache cacheExpiry symbol interval limit
          responses now).2.1 = [1000, 2000] ∧
      (enableCache = true → ∃ item,
        lookupKey (cacheKeyOf symbol interval limit)
          (fetchHistorical cache enableCache cacheExpiry symbol interval limit
            responses now).2.2.entries = some item ∧ item.data = data)) ∧
    (∀ e1 e2 e3, fetchHistoricalInternal (responses 1) = Except.error e1 →
      fetchHistoricalInternal (responses 2) = Except.error e2 →
      fetchHistoricalInternal (responses 3) = Except.error e3 →
      (fetchHistorical cache enableCache cacheExpiry symbol interval limit
          responses now).1
        = Except.error (DataSourceError.mk "FETCH_FAILED" (some e3)) ∧
      (fetchHistorical cache enableCache cacheExpiry symbol interval limit
          responses now).2.1 = [1000, 2000]) := by
  refine ⟨?_, ?_, ?_, ?_, ?_⟩
  · intro responses2 h
    have hext := fetchAttempts_ext responses responses2 1 MAX_RETRIES none
      (fun i hi1 hi2 => h i hi1 (by simp [MAX_RETRIES] at hi2 ⊢; omega))
    rw [fetchHistorical_miss cache enableCache cacheExpiry symbol interval
        limit responses2 now hmiss,
      fetchHistorical_miss cache enableCache cacheExpiry symbol interval
        limit responses now hmiss]
    simp only [hext]
  · intro data h1
    have hfa := fetchAttempts_first_ok responses data h1
    rw [fetchHistorical_miss cache enableCache cacheExpiry symbol interval
        limit responses now hmiss]
    simp only [hfa]
    refine ⟨trivial, trivial, ?_⟩
    intro hec
    subst hec
    simp only [if_true]
    exact ⟨⟨data, now, _⟩,
      by rw [set_entries]; exact lookup_mapSet_self _ _ _, rfl⟩
  · intro e1 data h1 h2
    have hfa := fetchAttempts_second_ok responses e1 data h1 h2
    rw [fetchHistorical_miss cache enableCache cacheExpiry symbol interval
        limit responses now hmiss]
    simp only [hfa]
    refine ⟨trivial, trivial, ?_⟩
    intro hec
    subst hec
    simp only [if_true]
    exact ⟨⟨data, now, _⟩,
      by rw [set_entries]; exact lookup_mapSet_self _ _ _, rfl⟩
  · intro e1 e2 data h1 h2 h3
    have hfa := fetchAttempts_third_ok responses e1 e2 data h1 h2 h3
    rw [fetchHistorical_miss cache enableCache cacheExpiry symbol interval
        limit responses now hmiss]
    simp only [hfa]
    refine ⟨trivial, trivial, ?_⟩
    intro hec
    subst hec
    simp only [if_true]
    exact ⟨⟨data, now, _⟩,
      by rw [set_entries]; exact lookup_mapSet_self _ _ _, rfl⟩
  · intro e1 e2 e3 h1 h2 h3
    have hfa := fetchAttempts_all_fail responses e1 e2 e3 h1 h2 h3
    rw [fetchHistorical_miss cache enableCache cacheExpiry symbol interval
        limit responses now hmiss]
    simp only [hfa]
    exact ⟨trivial, trivial⟩

/-- Attempt schedule for the C4 witness: attempt 1 answers HTTP 500-style
    (`ok = false`), later attempts answer an empty kline array. -/
def c4responses : Nat → RestResponse := fun i =>
  if i = 1 then ⟨false, RawVal.arr []⟩ else ⟨true, RawVal.arr []⟩

/-- Witness for C4: success on attempt 2 after one HTTP failure — result is
    the parsed (empty) series, exactly one retry delay of 1000 ms was
    awaited, and the result is in the cache. -/
theorem fetchHistorical_retry_policy_witness :
    (fetchHistorical (DataCache.init _) true 1000 "BTC" "1m" 1
        c4responses 0).1 = Except.ok [] ∧
    (fetchHistorical (DataCache.init _) true 1000 "BTC" "1m" 1
        c4responses 0).2.1 = [1000] ∧
    ∃ item, lookupKey (cacheKeyOf "BTC" "1m" 1)
        (fetchHistorical (DataCache.init _) true 1000 "BTC" "1m" 1
          c4responses 0).2.2.entries = some item ∧ item.data = [] := by
  have h := (fetchHistorical_retry_policy (DataCache.init _) true 1000
      "BTC" "1m" 1 c4responses 0 rfl).2.2.1
      (DataSourceError.mk "HTTP_ERROR" none) [] rfl rfl
  exact ⟨h.1, h.2.1, h.2.2 rfl⟩

/-! ### Order-book reconstructor (`useOrderBookStore` / `updateLevels`)

`decimal.js` values in the plain-decimal fragment the order-book code feeds
it are modelled exactly: a string `d₁…dₙ.f₁…fₘ` (optional sign) denotes the
rational `mant / 10^scale` with `mant` the signed digit string read as an
integer and `scale = m`. Constructing a `Decimal` from a malformed string
throws, which the embedding surfaces as `none` (the exception escapes
`updateLevels`). Comparisons are exact cross-multiplied integer
comparisons — the sign of `a.minus(b).toNumber()`. -/

/-- `10 ^ n` as an integer, kernel-reducible. -/
def pow10 : Nat → Int
  | 0 => 1
  | n + 1 => 10 * pow10 n

/-- A `decimal.js` number: value `mant / 10^scale`. -/
structure DecNum where
  mant : Int
  scale : Nat
  deriving DecidableEq, Repr

namespace DecNum

/-- `Decimal.prototype.isZero`. -/
def isZero (d : DecNum) : Bool := d.mant = 0

/-- Value order `a ≤ b` by exact cross multiplication. -/
def dle (a b : DecNum) : Prop := a.mant * pow10 b.scale ≤ b.mant * pow10 a.scale

/-- Strict value order `a < b`. -/
def dlt (a b : DecNum) : Prop := a.mant * pow10 b.scale < b.mant * pow10 a.scale

/-- Value equality `a = b` (e.g. `1.0` and `1.00` are value-equal). -/
def deq (a b : DecNum) : Prop := a.mant * pow10 b.scale = b.mant * pow10 a.scale

instance : DecidablePred (fun p : DecNum × DecNum => dle p.1 p.2) :=
  fun _ => Int.decLe _ _

instance (a b : DecNum) : Decidable (dle a b) := Int.decLe _ _

instance (a b : DecNum) : Decidable (dlt a b) := Int.decLt _ _

instance (a b : DecNum) : Decidable (deq a b) := Int.decEq _ _

end DecNum

theorem pow10_pos (n : Nat) : 0 < pow10 n := by
  induction n with
  | zero => decide
  | succ m ih => simpa [pow10] using by positivity

/-- The digit-string value of a character list; `none` on a non-digit. -/
def digitsVal (cs : List Char) : Option Nat :=
  cs.foldlM
    (fun acc c =>
      if c.isDigit then some (10 * acc + (c.toNat - 48)) else none)
    0

/-- `new Decimal(s)` on a plain decimal numeral: optional sign, integer
    digits, optional dot and fraction digits; anything else throws
    (`none`). -/
def decVal (s : String) : Option DecNum :=
  let cs := s.data
  let signed := match cs with
    | '-' :: rest => (true, rest)
    | '+' :: rest => (false, rest)
    | _ => (false, cs)
  let neg := signed.1
  let cs1 := signed.2
  if cs1.isEmpty then none
  else
    let ip := cs1.takeWhile (· != '.')
    let rest := cs1.dropWhile (· != '.')
    match rest with
    | [] => (digitsVal ip).map
        (fun n => ⟨if neg then -(n : Int) else (n : Int), 0⟩)
    | _ :: frac =>
        if frac.contains '.' then none
        else
          match digitsVal ip, digitsVal frac with
          | some i, some f =>
              if ip.isEmpty && frac.isEmpty then none
              else
                let m : Int := (i : Int) * pow10 frac.length + (f : Int)
                some ⟨if neg then -m else m, frac.length⟩
          | _, _ => none

/-- `OrderBookLevel` of `src/types/binance.ts`: price and quantity as
    decimal strings. -/
structure OrderBookLevel where
  price : String
  quantity : String
  deriving DecidableEq, Repr

/-- One iteration of the update loop of `updateLevels`: zero-quantity
    updates delete the price key, others insert-or-overwrite; an unparseable
    quantity throws. -/
def applyUpdate (m : List (String × String)) (pq : String × String) :
    Option (List (String × String)) :=
  (decVal pq.2).map
    (fun q => if q.isZero then deleteKey pq.1 m else mapSet pq.1 pq.2 m)

/-- The whole `updates.forEach` loop: sequential application, a thrown
    exception aborting the rest. -/
def applyUpdates : List (String × String) → List (String × String) →
    Option (List (String × String))
  | [], m => some m
  | u :: us, m => (applyUpdate m u).bind (fun m2 => applyUpdates us m2)

/-- The sort comparator of `updateLevels` on (level, price value) pairs:
    `a` may stay before `b` iff the comparator
    `isBid ? vb - va : va - vb` is `≤ 0`. -/
def levelLe (isBid : Bool) (a b : OrderBookLevel × DecNum) : Bool :=
  if isBid then decide (DecNum.dle b.2 a.2) else decide (DecNum.dle a.2 b.2)

/-- Stable insertion into a sorted list: `x` goes before the first element
    it may precede. -/
def insOrdered (le : α → α → Bool) (x : α) : List α → List α
  | [] => [x]
  | y :: ys => if le x y then x :: y :: ys else y :: insOrdered le x ys

/-- Stable insertion sort — the behaviour of JS `Array.prototype.sort`
    (stable per the ECMAScript spec) under a consistent comparator. -/
def insSort (le : α → α → Bool) : List α → List α
  | [] => []
  | x :: xs => insOrdered le x (insSort le xs)

/-- The `Array.from(levelMap.entries()).map(...)` step, paired with the
    decimal value of each price that the sort comparator constructs
    (eagerly here, lazily in JS; a constructor throw is `none`). -/
def toLevelPairs : List (String × String) →
    Option (List (OrderBookLevel × DecNum))
  | [] => some []
  | e :: es =>
      match decVal e.1 with
      | none => none
      | some v => (toLevelPairs es).map (fun ps => (⟨e.1, e.2⟩, v) :: ps)

/-- `updateLevels(existingLevels, updates, isBid)` of
    `useOrderBookStore.ts`: seed a `Map` from the existing side, apply the
    updates (zero quantity deletes the price level, otherwise
    insert-or-overwrite), convert back to an array, sort by decimal price
    value (descending for bids, ascending for asks; prices are parsed for
    the comparison, eagerly here, lazily in JS) and keep the top 100
    levels. `none` models a `Decimal` constructor exception escaping the
    function. -/
def updateLevels (existingLevels : List OrderBookLevel)
    (updates : List (String × String)) (isBid : Bool) :
    Option (List OrderBookLevel) := do
  let m0 := existingLevels.foldl (fun m l => mapSet l.price l.quantity m) []
  let m1 ← applyUpdates updates m0
  let pairs ← toLevelPairs m1
  let sorted := insSort (levelLe isBid) pairs
  pure ((sorted.map Prod.fst).take 100)

/-! ### Lemmas about the stable insertion sort and the update loop -/

theorem insOrdered_perm (le : α → α → Bool) (x : α) (l : List α) :
    List.Perm (insOrdered le x l) (x :: l) := by
  induction l with
  | nil => exact List.Perm.refl _
  | cons y ys ih =>
    by_cases h : le x y
    · simp [insOrdered, h]
    · simp only [insOrdered, if_neg h]
      exact (ih.cons y).trans (List.Perm.swap x y ys)

theorem insSort_perm (le : α → α → Bool) (l : List α) :
    List.Perm (insSort le l) l := by
  induction l with
  | nil => exact List.Perm.refl _
  | cons x xs ih =>
    exact (insOrdered_perm le x (insSort le xs)).trans (ih.cons x)

theorem insOrdered_pairwise (le : α → α → Bool)
    (htot : ∀ a b, le a b = false → le b a = true)
    (htrans : ∀ a b c, le a b = true → le b c = true → le a c = true)
    (x : α) (l : List α) (hl : l.Pairwise (fun a b => le a b = true)) :
    (insOrdered le x l).Pairwise (fun a b => le a b = true) := by
  induction l with
  | nil => simp [insOrdered]
  | cons y ys ih =>
    rcases List.pairwise_cons.mp hl with ⟨hy, hys⟩
    by_cases h : le x y
    · simp only [insOrdered, if_pos h]
      refine List.pairwise_cons.mpr ⟨?_, hl⟩
      intro z hz
      rcases List.mem_cons.mp hz with rfl | hz2
      · exact h
      · exact htrans x y z h (hy z hz2)
    · simp only [insOrdered, if_neg h]
      refine List.pairwise_cons.mpr ⟨?_, ih hys⟩
      intro z hz
      rcases List.mem_cons.mp ((insOrdered_perm le x ys).mem_iff.mp hz)
        with heq | hz2
      · subst heq
        exact htot z y (by simpa using h)
      · exact hy z hz2

theorem insSort_pairwise (le : α → α → Bool)
    (htot : ∀ a b, le a b = false → le b a = true)
    (htrans : ∀ a b c, le a b = true → le b c = true → le a c = true)
    (l : List α) :
    (insSort le l).Pairwise (fun a b => le a b = true) := by
  induction l with
  | nil => simp [insSort]
  | cons x xs ih =>
    exact insOrdered_pairwise le htot htrans x (insSort le xs) ih

theorem lookup_deleteKey_ne (k a : String) (l : List (String × β))
    (h : a ≠ k) : lookupKey a (deleteKey k l) = lookupKey a l := by
  induction l with
  | nil => rfl
  | cons hd tl ih =>
    obtain ⟨k', v'⟩ := hd
    by_cases hk : k' = k
    · subst hk
      simp [deleteKey, lookupKey, Ne.symm h]
    · simp [deleteKey, lookupKey, hk, ih]

theorem mem_mapSet_elems (k : String) (v : β) (l : List (String × β))
    (p : String × β) (h : p ∈ mapSet k v l) : p = (k, v) ∨ p ∈ l := by
  induction l with
  | nil => simpa [mapSet] using h
  | cons hd tl ih =>
    obtain ⟨k', v'⟩ := hd
    by_cases hk : k' = k
    · rcases List.mem_cons.mp (by simpa [mapSet, hk] using h) with h1 | h1
      · exact Or.inl h1
      · exact Or.inr (List.mem_cons_of_mem _ h1)
    · rcases List.mem_cons.mp (by simpa [mapSet, hk] using h) with h1 | h1
      · exact Or.inr (h1 ▸ List.mem_cons_self _ _)
      · rcases ih h1 with h2 | h2
        · exact Or.inl h2
        · exact Or.inr (List.mem_cons_of_mem _ h2)

theorem mem_deleteKey_sub (k : String) (l : List (String × β))
    (p : String × β) (h : p ∈ deleteKey k l) : p ∈ l :=
  (deleteKey_sublist k l).mem h

theorem lookup_none_not_mem (a : String) (l : List (String × β))
    (h : lookupKey a l = none) : ∀ b, (a, b) ∉ l := by
  induction l with
  | nil => simp
  | cons hd tl ih =>
    obtain ⟨k', v'⟩ := hd
    intro b hb
    by_cases hk : k' = a
    · simp [lookupKey, hk] at h
    · simp only [lookupKey, if_neg hk] at h
      rcases List.mem_cons.mp hb with h1 | h1
      · exact hk (by injection h1 with h2 _; exact h2.symm)
      · exact ih h b h1

theorem applyUpdates_append (l1 l2 : List (String × String))
    (m : List (String × String)) :
    applyUpdates (l1 ++ l2) m
      = (applyUpdates l1 m).bind (fun m2 => applyUpdates l2 m2) := by
  induction l1 generalizing m with
  | nil => simp [applyUpdates]
  | cons u us ih =>
    simp only [List.cons_append, applyUpdates]
    cases applyUpdate m u with
    | none => simp
    | some m2 => simp [ih]

theorem applyUpdates_nodup (updates : List (String × String))
    (m m1 : List (String × String)) (hm : (m.map Prod.fst).Nodup)
    (h : applyUpdates updates m = some m1) :
    (m1.map Prod.fst).Nodup := by
  induction updates generalizing m with
  | nil =>
      simp only [applyUpdates] at h
      injection h with h1
      exact h1 ▸ hm
  | cons u us ih =>
    simp only [applyUpdates] at h
    cases hv : applyUpdate m u with
    | none => rw [hv] at h; cases h
    | some m2 =>
        rw [hv] at h
        refine ih m2 ?_ h
        simp only [applyUpdate] at hv
        cases hq : decVal u.2 with
        | none => rw [hq] at hv; cases hv
        | some q =>
            rw [hq] at hv
            injection hv with hv1
            by_cases hz : q.isZero
            · rw [← hv1]
              simp only [hz, if_true]
              exact nodup_keys_deleteKey _ _ hm
            · rw [← hv1]
              simp only [hz, if_false]
              exact nodup_keys_mapSet _ _ _ hm

theorem applyUpdates_no_zero (updates : List (String × String))
    (m m1 : List (String × String))
    (hm : ∀ a b, (a, b) ∈ m → ∀ d, decVal b = some d → d.isZero = false)
    (h : applyUpdates updates m = some m1) :
    ∀ a b, (a, b) ∈ m1 → ∀ d, decVal b = some d → d.isZero = false := by
  induction updates generalizing m with
  | nil =>
      simp only [applyUpdates] at h
      injection h with h1
      exact h1 ▸ hm
  | cons u us ih =>
    simp only [applyUpdates] at h
    cases hv : applyUpdate m u with
    | none => rw [hv] at h; cases h
    | some m2 =>
        rw [hv] at h
        refine ih m2 ?_ h
        simp only [applyUpdate] at hv
        cases hq : decVal u.2 with
        | none => rw [hq] at hv; cases hv
        | some q =>
            rw [hq] at hv
            injection hv with hv1
            by_cases hz : q.isZero
            · rw [← hv1]
              simp only [hz, if_true]
              intro a b hab d hd
              exact hm a b (mem_deleteKey_sub _ _ _ hab) d hd
            · rw [← hv1]
              simp only [hz, if_false]
              intro a b hab d hd
              rcases mem_mapSet_elems _ _ _ _ hab with heq | hmem
              · have hb : b = u.2 := congrArg Prod.snd heq
                rw [hb] at hd
                rw [hq] at hd
                injection hd with hd1
                rw [← hd1]
                exact Bool.eq_false_iff.mpr hz
              · exact hm a b hmem d hd

theorem applyUpdates_last_zero (updates : List (String × String)) :
    ∀ (m m1 : List (String × String)) (p : String) (pq0 : String × String),
    (m.map Prod.fst).Nodup →
    applyUpdates updates m = some m1 →
    List.find? (fun pq => pq.1 == p) updates.reverse = some pq0 →
    ∀ d, decVal pq0.2 = some d → d.isZero = true →
    lookupKey p m1 = none := by
  induction updates using List.reverseRecOn with
  | nil =>
      intro m m1 p pq0 hm h hfind d hd hz
      simp at hfind
  | append_singleton us u ih =>
      intro m m1 p pq0 hm h hfind d hd hz
      rw [applyUpdates_append] at h
      cases h1 : applyUpdates us m with
      | none => rw [h1] at h; cases h
      | some m2 =>
          rw [h1] at h
          replace h : applyUpdates [u] m2 = some m1 := h
          simp only [applyUpdates] at h
          cases hv : applyUpdate m2 u with
          | none => rw [hv] at h; cases h
          | some m3 =>
              rw [hv] at h
              replace h : some m3 = some m1 := h
              injection h with h2
              subst h2
              have hnd2 : (m2.map Prod.fst).Nodup :=
                applyUpdates_nodup us m m2 hm h1
              rw [List.reverse_append] at hfind
              simp only [List.reverse_singleton, List.singleton_append,
                List.find?_cons] at hfind
              cases hp : (u.1 == p) with
              | true =>
                  rw [hp] at hfind
                  replace hfind : some u = some pq0 := hfind
                  injection hfind with hfind1
                  subst hfind1
                  simp [applyUpdate, hd, hz] at hv
                  rw [← hv]
                  have hup : u.1 = p := by simpa using hp
                  rw [hup]
                  exact lookup_deleteKey_self p m2 hnd2
              | false =>
                  rw [hp] at hfind
                  replace hfind :
                      List.find? (fun pq => pq.1 == p) us.reverse
                        = some pq0 := hfind
                  have hlook : lookupKey p m2 = none :=
                    ih m m2 p pq0 hm h1 hfind d hd hz
                  have hne : p ≠ u.1 := fun hc => by simp [hc] at hp
                  simp only [applyUpdate] at hv
                  cases hq : decVal u.2 with
                  | none => rw [hq] at hv; cases hv
                  | some q =>
                      rw [hq] at hv
                      replace hv : some (if q.isZero then deleteKey u.1 m2
                          else mapSet u.1 u.2 m2) = some m3 := hv
                      injection hv with hv1
                      by_cases hzq : q.isZero
                      · rw [← hv1]
                        simp only [hzq, if_true]
                        rw [lookup_deleteKey_ne u.1 p m2 hne]
                        exact hlook
                      · rw [← hv1]
                        simp [hzq]
                        rw [lookup_mapSet_ne u.1 p u.2 m2 hne]
                        exact hlook

theorem toLevelPairs_spec (m1 : List (String × String))
    (pairs : List (OrderBookLevel × DecNum))
    (h : toLevelPairs m1 = some pairs) :
    pairs.map (fun pr => (pr.1.price, pr.1.quantity)) = m1 ∧
    ∀ pr ∈ pairs, decVal pr.1.price = some pr.2 := by
  induction m1 generalizing pairs with
  | nil =>
      simp only [toLevelPairs] at h
      injection h with h1
      subst h1
      exact ⟨rfl, by simp⟩
  | cons e es ih =>
    simp only [toLevelPairs] at h
    cases hv : decVal e.1 with
    | none => rw [hv] at h; cases h
    | some v =>
        rw [hv] at h
        cases hrest : toLevelPairs es with
        | none => rw [hrest] at h; cases h
        | some ps =>
            rw [hrest] at h
            replace h : some (((⟨e.1, e.2⟩ : OrderBookLevel), v) :: ps)
                = some pairs := h
            injection h with h1
            subst h1
            obtain ⟨hmap, hdec⟩ := ih ps hrest
            refine ⟨by simp [hmap], ?_⟩
            intro pr hpr
            rcases List.mem_cons.mp hpr with heq | hpr2
            · subst heq
              exact hv
            · exact hdec pr hpr2

theorem foldl_mapSet_nodup (ls : List OrderBookLevel)
    (m : List (String × String)) (hm : (m.map Prod.fst).Nodup) :
    ((ls.foldl (fun m2 l => mapSet l.price l.quantity m2) m).map
      Prod.fst).Nodup := by
  induction ls generalizing m with
  | nil => exact hm
  | cons l ls2 ih => exact ih _ (nodup_keys_mapSet _ _ _ hm)

theorem foldl_mapSet_mem (ls : List OrderBookLevel)
    (m : List (String × String)) (p : String × String)
    (h : p ∈ ls.foldl (fun m2 l => mapSet l.price l.quantity m2) m) :
    (∃ l ∈ ls, l.price = p.1 ∧ l.quantity = p.2) ∨ p ∈ m := by
  induction ls generalizing m with
  | nil => exact Or.inr h
  | cons l ls2 ih =>
    rcases ih (mapSet l.price l.quantity m) h with h1 | h1
    · obtain ⟨l2, hl2, hp⟩ := h1
      exact Or.inl ⟨l2, List.mem_cons_of_mem _ hl2, hp⟩
    · rcases mem_mapSet_elems _ _ _ _ h1 with h2 | h2
      · exact Or.inl ⟨l, List.mem_cons_self _ _,
          (congrArg Prod.fst h2).symm, (congrArg Prod.snd h2).symm⟩
      · exact Or.inr h2

theorem dle_total (a b : DecNum) (h : ¬ DecNum.dle a b) : DecNum.dle b a :=
  le_of_not_le h

theorem dle_trans (a b c : DecNum) (h1 : DecNum.dle a b)
    (h2 : DecNum.dle b c) : DecNum.dle a c := by
  unfold DecNum.dle at h1 h2 ⊢
  have pa := pow10_pos a.scale
  have pb := pow10_pos b.scale
  have pc := pow10_pos c.scale
  have h1c := mul_le_mul_of_nonneg_right h1 (le_of_lt pc)
  have h2a := mul_le_mul_of_nonneg_right h2 (le_of_lt pa)
  refine le_of_mul_le_mul_right ?_ pb
  calc a.mant * pow10 c.scale * pow10 b.scale
      = a.mant * pow10 b.scale * pow10 c.scale := by ring
    _ ≤ b.mant * pow10 a.scale * pow10 c.scale := h1c
    _ = b.mant * pow10 c.scale * pow10 a.scale := by ring
    _ ≤ c.mant * pow10 b.scale * pow10 a.scale := h2a
    _ = c.mant * pow10 a.scale * pow10 b.scale := by ring

theorem deq_comm (a b : DecNum) : DecNum.deq a b ↔ DecNum.deq b a := by
  unfold DecNum.deq
  exact eq_comm

theorem dlt_of_dle_not_deq (a b : DecNum) (h : DecNum.dle a b)
    (hne : ¬ DecNum.deq a b) : DecNum.dlt a b :=
  lt_of_le_of_ne h hne

theorem levelLe_total (isBid : Bool) (a b : OrderBookLevel × DecNum)
    (h : levelLe isBid a b = false) : levelLe isBid b a = true := by
  cases isBid <;> simp [levelLe] at h ⊢ <;> exact dle_total _ _ h

theorem levelLe_trans (isBid : Bool) (a b c : OrderBookLevel × DecNum)
    (h1 : levelLe isBid a b = true) (h2 : levelLe isBid b c = true) :
    levelLe isBid a c = true := by
  cases isBid <;> simp [levelLe] at h1 h2 ⊢
  · exact dle_trans _ _ _ h1 h2
  · exact dle_trans _ _ _ h2 h1

theorem updateLevels_eq (existing : List OrderBookLevel)
    (updates : List (String × String)) (isBid : Bool)
    (out : List OrderBookLevel)
    (h : updateLevels existing updates isBid = some out) :
    ∃ m1 pairs,
      applyUpdates updates
          (existing.foldl (fun m l => mapSet l.price l.quantity m) [])
        = some m1 ∧
      toLevelPairs m1 = some pairs ∧
      out = ((insSort (levelLe isBid) pairs).map Prod.fst).take 100 := by
  replace h : (applyUpdates updates
      (existing.foldl (fun m l => mapSet l.price l.quantity m) [])).bind
        (fun m1 => (toLevelPairs m1).bind (fun pairs =>
          some (((insSort (levelLe isBid) pairs).map Prod.fst).take 100)))
      = some out := h
  cases h1 : applyUpdates updates
      (existing.foldl (fun m l => mapSet l.price l.quantity m) []) with
  | none => rw [h1] at h; cases h
  | some m1 =>
    rw [h1] at h
    replace h : (toLevelPairs m1).bind (fun pairs =>
        some (((insSort (levelLe isBid) pairs).map Prod.fst).take 100))
      = some out := h
    cases h2 : toLevelPairs m1 with
    | none => rw [h2] at h; cases h
    | some pairs =>
      rw [h2] at h
      replace h : some (((insSort (levelLe isBid) pairs).map
          Prod.fst).take 100) = some out := h
      injection h with h3
      exact ⟨m1, pairs, rfl, h2, h3.symm⟩

/-- Every level of the resulting side comes from an entry of the updated
    map. -/
theorem updateLevels_mem_map (isBid : Bool)
    (out : List OrderBookLevel) (m1 : List (String × String))
    (pairs : List (OrderBookLevel × DecNum))
    (h2 : toLevelPairs m1 = some pairs)
    (h3 : out = ((insSort (levelLe isBid) pairs).map Prod.fst).take 100) :
    ∀ l ∈ out, (l.price, l.quantity) ∈ m1 := by
  intro l hl
  rw [h3] at hl
  have hl2 : l ∈ (insSort (levelLe isBid) pairs).map Prod.fst :=
    (List.take_sublist 100 _).subset hl
  obtain ⟨pr, hpr, hpr2⟩ := List.mem_map.mp hl2
  have hpr3 : pr ∈ pairs := (insSort_perm _ _).mem_iff.mp hpr
  obtain ⟨hmap, _⟩ := toLevelPairs_spec m1 pairs h2
  have hmem : (pr.1.price, pr.1.quantity) ∈ m1 :=
    hmap ▸ List.mem_map_of_mem _ hpr3
  rw [hpr2] at hmem
  exact hmem

/-- C5, counterexample: starting from a side that holds a zero-quantity
    level at price "3" (untouched by the batch), the batch
    `[("1","0"), ("1","2")]` first deletes and then re-adds price "1".
    The claim says "1" must be absent and no level may have zero quantity;
    in the result "1" is present (quantity 2) and the level ("3","0") has
    zero quantity. -/
theorem updateLevels_zero_quantity_cex :
    updateLevels [⟨"3", "0"⟩] [("1", "0"), ("1", "2")] true
      = some [⟨"3", "0"⟩, ⟨"1", "2"⟩] ∧
    "1" ∈ ([(⟨"3", "0"⟩ : OrderBookLevel), ⟨"1", "2"⟩].map
      OrderBookLevel.price) ∧
    (decVal (OrderBookLevel.quantity ⟨"3", "0"⟩)).map DecNum.isZero
      = some true := by
  refine ⟨by decide, by decide, by decide⟩

/-- C5 (amended): for every starting side whose levels all have non-zero
    quantity under decimal evaluation, and every successfully applied batch:
    no level of the result has zero quantity, and every price whose LAST
    update in the batch carries a zero quantity is absent from the result
    (a later non-zero update for the same price re-inserts it, which is why
    "some zero update in the batch" is not enough). -/
theorem updateLevels_zero_removal (existing : List OrderBookLevel)
    (updates : List (String × String)) (isBid : Bool)
    (out : List OrderBookLevel)
    (h : updateLevels existing updates isBid = some out) :
    ((∀ l ∈ existing, ∀ d, decVal l.quantity = some d → d.isZero = false) →
      ∀ l ∈ out, ∀ d, decVal l.quantity = some d → d.isZero = false) ∧
    (∀ p pq0, List.find? (fun pq => pq.1 == p) updates.reverse = some pq0 →
      ∀ d, decVal pq0.2 = some d → d.isZero = true →
      ∀ l ∈ out, l.price ≠ p) := by
  obtain ⟨m1, pairs, h1, h2, h3⟩ := updateLevels_eq existing updates isBid out h
  have hmem := updateLevels_mem_map isBid out m1 pairs h2 h3
  constructor
  · intro hstart l hl d hd
    have hm0 : ∀ a b, (a, b) ∈ existing.foldl
        (fun m l2 => mapSet l2.price l2.quantity m) [] →
        ∀ d2, decVal b = some d2 → d2.isZero = false := by
      intro a b hab d2 hd2
      rcases foldl_mapSet_mem existing [] (a, b) hab with h4 | h4
      · obtain ⟨l2, hl2, _, hp2⟩ := h4
        exact hstart l2 hl2 d2 (by rw [hp2]; exact hd2)
      · cases h4
    exact applyUpdates_no_zero updates _ m1 hm0 h1
      l.price l.quantity (hmem l hl) d hd
  · intro p pq0 hfind d hd hz l hl hlp
    have hnd0 : ((existing.foldl
        (fun m l2 => mapSet l2.price l2.quantity m) []).map
        Prod.fst).Nodup := foldl_mapSet_nodup existing [] (by simp)
    have hnone := applyUpdates_last_zero updates _ m1 p pq0 hnd0 h1 hfind
      d hd hz
    exact lookup_none_not_mem p m1 hnone l.quantity (hlp ▸ hmem l hl)

/-- Witness for C5 (amended): deleting price "5" from the side
    `[("5","1"), ("6","2")]` leaves `[("6","2")]`, whose only level is not at
    price "5". -/
theorem updateLevels_zero_removal_witness :
    OrderBookLevel.price ⟨"6", "2"⟩ ≠ "5" :=
  (updateLevels_zero_removal [⟨"5", "1"⟩, ⟨"6", "2"⟩] [("5", "0")] true
      [⟨"6", "2"⟩] (by decide)).2 "5" ("5", "0") (by decide) ⟨0, 0⟩
    (by decide) (by decide) ⟨"6", "2"⟩ (by decide)

/-- C6, counterexample: the batch `[("1.0","1"), ("1.00","2")]` on an empty
    ask side keeps both price strings as distinct map keys although their
    decimal values are equal, so the resulting side holds two levels with the
    same decimal price value — not strictly ascending, and the price (as a
    decimal value) occurs twice. -/
theorem updateLevels_strict_order_cex :
    updateLevels [] [("1.0", "1"), ("1.00", "2")] false
      = some [⟨"1.0", "1"⟩, ⟨"1.00", "2"⟩] ∧
    decVal (OrderBookLevel.price ⟨"1.0", "1"⟩) = some ⟨10, 1⟩ ∧
    decVal (OrderBookLevel.price ⟨"1.00", "2"⟩) = some ⟨100, 2⟩ ∧
    DecNum.deq ⟨10, 1⟩ ⟨100, 2⟩ ∧
    ¬ DecNum.dlt ⟨10, 1⟩ ⟨100, 2⟩ := by
  refine ⟨by decide, by decide, by decide, by decide, by decide⟩

/-- C6 (amended): every successfully applied batch yields a side of at most
    100 levels whose price strings are pairwise distinct and which is sorted
    by decimal price value — non-strictly in general (bids descending, asks
    ascending); the ordering is strict whenever distinct price strings of the
    result have distinct decimal values (as with canonical exchange
    tick-size prices). -/
theorem updateLevels_sorted_bounded (existing : List OrderBookLevel)
    (updates : List (String × String)) (isBid : Bool)
    (out : List OrderBookLevel)
    (h : updateLevels existing updates isBid = some out) :
    out.length ≤ 100 ∧
    (out.map OrderBookLevel.price).Nodup ∧
    out.Pairwise (fun a b => ∀ da db, decVal a.price = some da →
      decVal b.price = some db →
      if isBid then DecNum.dle db da else DecNum.dle da db) ∧
    ((∀ a b, a ∈ out → b ∈ out → a.price ≠ b.price →
        ∀ da db, decVal a.price = some da → decVal b.price = some db →
        ¬ DecNum.deq da db) →
      out.Pairwise (fun a b => ∀ da db, decVal a.price = some da →
        decVal b.price = some db →
        if isBid then DecNum.dlt db da else DecNum.dlt da db)) := by
  obtain ⟨m1, pairs, h1, h2, h3⟩ := updateLevels_eq existing updates isBid out h
  obtain ⟨hmap, hdec⟩ := toLevelPairs_spec m1 pairs h2
  have hlen : out.length ≤ 100 := by
    rw [h3]
    exact List.length_take_le 100 _
  have hnd1 : (m1.map Prod.fst).Nodup :=
    applyUpdates_nodup updates _ m1
      (foldl_mapSet_nodup existing [] (by simp)) h1
  have hprices : pairs.map (fun pr => pr.1.price) = m1.map Prod.fst := by
    have hc := congrArg (List.map Prod.fst) hmap
    simpa [List.map_map, Function.comp] using hc
  have hndpairs : (pairs.map (fun pr => pr.1.price)).Nodup :=
    hprices ▸ hnd1
  have hndsorted : ((insSort (levelLe isBid) pairs).map
      (fun pr => pr.1.price)).Nodup :=
    (((insSort_perm (levelLe isBid) pairs).map
      (fun pr => pr.1.price)).nodup_iff).mpr hndpairs
  have hndout : (out.map OrderBookLevel.price).Nodup := by
    rw [h3]
    have hmm : (((insSort (levelLe isBid) pairs).map Prod.fst).take
          100).map OrderBookLevel.price
        = ((insSort (levelLe isBid) pairs).map
          (fun pr => pr.1.price)).take 100 := by
      simp only [List.map_take, List.map_map]
      rfl
    rw [hmm]
    exact (List.take_sublist _ _).nodup hndsorted
  have hsorted := insSort_pairwise (levelLe isBid) (levelLe_total isBid)
    (levelLe_trans isBid) pairs
  have hsorted2 : (insSort (levelLe isBid) pairs).Pairwise
      (fun pr1 pr2 => ∀ da db, decVal pr1.1.price = some da →
        decVal pr2.1.price = some db →
        if isBid then DecNum.dle db da else DecNum.dle da db) := by
    refine hsorted.imp_of_mem ?_
    intro pr1 pr2 hm1 hm2 hle da db hda hdb
    have hd1 : decVal pr1.1.price = some pr1.2 :=
      hdec pr1 ((insSort_perm _ _).mem_iff.mp hm1)
    have hd2 : decVal pr2.1.price = some pr2.2 :=
      hdec pr2 ((insSort_perm _ _).mem_iff.mp hm2)
    rw [hda] at hd1
    rw [hdb] at hd2
    have e1 : da = pr1.2 := Option.some.inj hd1
    have e2 : db = pr2.2 := Option.some.inj hd2
    subst e1
    subst e2
    cases isBid
    · simpa [levelLe] using hle
    · simpa [levelLe] using hle
  have hns : out.Pairwise (fun a b => ∀ da db,
      decVal a.price = some da → decVal b.price = some db →
      if isBid then DecNum.dle db da else DecNum.dle da db) := by
    rw [h3]
    exact (List.pairwise_map.mpr hsorted2).sublist (List.take_sublist _ _)
  refine ⟨hlen, hndout, hns, ?_⟩
  intro hinj
  have hne : out.Pairwise (fun a b => a.price ≠ b.price) :=
    List.pairwise_map.mp hndout
  refine (hns.and hne).imp_of_mem ?_
  intro a b hma hmb hab da db hda hdb
  obtain ⟨hdle, hnep⟩ := hab
  have hnd := hinj a b hma hmb hnep da db hda hdb
  cases isBid
  · exact dlt_of_dle_not_deq da db (hdle da db hda hdb) hnd
  · exact dlt_of_dle_not_deq db da (hdle da db hda hdb)
      (fun hq => hnd ((deq_comm db da).mp hq))

/-- Witness for C6 (amended): inserting prices "2" then "1" into an empty
    ask side yields the ascending, duplicate-free side `[("1","1"),
    ("2","1")]` of length ≤ 100. -/
theorem updateLevels_sorted_bounded_witness :
    ([(⟨"1", "1"⟩ : OrderBookLevel), ⟨"2", "1"⟩].map
      OrderBookLevel.price).Nodup ∧
    [(⟨"1", "1"⟩ : OrderBookLevel), ⟨"2", "1"⟩].length ≤ 100 :=
  let h := updateLevels_sorted_bounded [] [("2", "1"), ("1", "1")] false
    [⟨"1", "1"⟩, ⟨"2", "1"⟩] (by decide)
  ⟨h.2.1, h.1⟩
